import Mathlib

/-!
A verification model of cJSON (yueyihua/cJSON, src/cJSON.c).

Shallow embedding of the parts of `src/cJSON.c` needed to settle the
claims: the minifier, the string codec (parse/print), the number
printer's case selection, the `ensure` buffer-growth step, the tree
mutation operations (detach, duplicate) and the recursive-descent
parser with its error-offset reporting.

Modelling conventions:
* A C string is a `List Nat` of its bytes before the terminating null
  (valid inputs contain no 0 byte); the terminator is the end of the
  list.  Reading the terminator is allowed; any read *past* the
  terminator is undefined behaviour in C and is modelled as `none` /
  `.error`.
* Machine integers are `Nat` with explicit `% 2 ^ 64` where `size_t`
  overflow matters.
* Allocation is assumed to succeed (allocator hooks are out of scope);
  `double` payloads are modelled by `MDouble` below.
-/

namespace CJson

/-! ## cJSON_Minify (src/cJSON.c lines 2244-2306)

The C routine walks a read cursor (`json`) and a write cursor (`into`)
over the same buffer.  We model the read cursor by list consumption and
the write cursor by the returned output list; `none` means the read
cursor moved past the terminating null byte (an out-of-bounds read in
C). -/

/-- Scan of the inner loop of the `/``* ... *``/` branch of `cJSON_Minify`:
C stops the loop at a `*``/` pair or at the terminator, then
unconditionally does `json += 2`.  Stopping at the pair leaves the
cursor after the pair (in bounds); stopping at the terminator puts the
cursor two bytes past it, hence `none`. -/
def findBlockEnd : List Nat → Option (List Nat)
  | [] => none
  | [_] => none
  | a :: b :: rest =>
    if a = 42 ∧ b = 47 then some rest else findBlockEnd (b :: rest)

theorem findBlockEnd_length : ∀ l r, findBlockEnd l = some r → r.length + 2 ≤ l.length := by
  intro l
  induction l using findBlockEnd.induct with
  | case1 => intro r h; simp [findBlockEnd] at h
  | case2 => intro r h; simp [findBlockEnd] at h
  | case3 a b rest hab =>
    intro r h
    rw [findBlockEnd.eq_def] at h
    simp [hab] at h
    subst h; simp
  | case4 a b rest hab ih =>
    intro r h
    rw [findBlockEnd.eq_def] at h
    simp [hab] at h
    have := ih r h
    simp at this ⊢
    omega

/-- String-literal copy loop of `cJSON_Minify` (lines 2283-2296), applied
to the bytes after the opening quote: bytes are copied verbatim, a
backslash and its following byte are an atomic two-byte unit, and the
closing quote is copied.  An unterminated literal (or a backslash right
before the terminator) makes C copy the null byte and step past it,
hence `none`.  On success returns the copied bytes (closing quote
included) and the input after the closing quote. -/
def copyStr : List Nat → Option (List Nat × List Nat)
  | [] => none
  | b :: rest =>
    if b = 34 then some ([34], rest)
    else if b = 92 then
      match rest with
      | [] => none
      | x :: rest' => (copyStr rest').map (fun p => (92 :: x :: p.1, p.2))
    else (copyStr rest).map (fun p => (b :: p.1, p.2))

theorem copyStr_length : ∀ l p, copyStr l = some p →
    p.1.length + p.2.length = l.length ∧ 0 < p.1.length := by
  intro l
  induction l using copyStr.induct with
  | case1 => intro p h; simp [copyStr] at h
  | case2 rest =>
    intro p h
    rw [copyStr.eq_def] at h
    simp at h
    subst h
    exact ⟨by simp [Nat.add_comm], by simp⟩
  | case3 h => intro p hh; rw [copyStr.eq_def] at hh; simp at hh
  | case4 x rest' h ih =>
    intro p hh
    rw [copyStr.eq_def] at hh
    simp [Option.map_eq_some'] at hh
    obtain ⟨a, b, hc, he⟩ := hh
    obtain ⟨h1, h2⟩ := ih (a, b) hc
    subst he
    simp at h1 ⊢
    omega
  | case5 x rest' hx34 hx92 ih =>
    intro p hh
    rw [copyStr.eq_def] at hh
    simp [hx34, hx92, Option.map_eq_some'] at hh
    obtain ⟨a, b, hc, he⟩ := hh
    obtain ⟨h1, h2⟩ := ih (a, b) hc
    subst he
    simp at h1 ⊢
    omega

/-- A successfully copied string literal re-scans to itself: the copied
bytes end in the closing quote, internal backslash pairs stay paired,
so scanning them in front of any continuation `t` consumes exactly the
copied bytes. -/
theorem copyStr_append : ∀ l p, copyStr l = some p →
    ∀ t, copyStr (p.1 ++ t) = some (p.1, t) := by
  intro l
  induction l using copyStr.induct with
  | case1 => intro p h; simp [copyStr] at h
  | case2 rest =>
    intro p h
    rw [copyStr.eq_def] at h
    simp at h
    subst h
    intro t
    rw [copyStr.eq_def]
    simp
  | case3 h => intro p hh; rw [copyStr.eq_def] at hh; simp at hh
  | case4 x rest' h ih =>
    intro p hh
    rw [copyStr.eq_def] at hh
    simp [Option.map_eq_some'] at hh
    obtain ⟨a, b, hc, he⟩ := hh
    subst he
    intro t
    have := ih (a, b) hc t
    rw [copyStr.eq_def]
    simp [this]
  | case5 x rest' hx34 hx92 ih =>
    intro p hh
    rw [copyStr.eq_def] at hh
    simp [hx34, hx92, Option.map_eq_some'] at hh
    obtain ⟨a, b, hc, he⟩ := hh
    subst he
    intro t
    have := ih (a, b) hc t
    rw [copyStr.eq_def]
    simp [hx34, hx92, this]

/-- `cJSON_Minify` (src/cJSON.c lines 2244-2306).  Whitespace bytes are
dropped; `//` comments are dropped up to (not including) the next
newline; `/``* ... *``/` comments are dropped including the closing pair;
string literals are copied verbatim; everything else is copied.  The
written null terminator is implicit (end of the output list); `none`
records a read past the input's terminator. -/
def minify (l : List Nat) : Option (List Nat) :=
  match l with
  | [] => some []
  | b :: rest =>
    if b = 32 ∨ b = 9 ∨ b = 13 ∨ b = 10 then
      minify rest
    else if b = 47 ∧ rest.head? = some 47 then
      minify (rest.dropWhile (fun c => c ≠ 10))
    else if b = 47 ∧ rest.head? = some 42 then
      match h : findBlockEnd rest with
      | none => none
      | some r => minify r
    else if b = 34 then
      match h : copyStr rest with
      | none => none
      | some p => (minify p.2).map (fun s => 34 :: p.1 ++ s)
    else
      (minify rest).map (fun s => b :: s)
termination_by l.length
decreasing_by
  all_goals simp only [List.length_cons]
  · omega
  · exact Nat.lt_succ_of_le ((List.dropWhile_suffix _).length_le)
  · have := findBlockEnd_length _ _ h
    omega
  · have := copyStr_length _ _ h
    omega
  · omega

/-- Scan deciding whether a byte string contains, outside its string
literals, a `/` immediately followed by `/` or `*` (a comment opener
that `cJSON_Minify` would act on). -/
def noCommentStart (l : List Nat) : Bool :=
  match l with
  | [] => true
  | b :: rest =>
    if b = 34 then
      match h : copyStr rest with
      | none => true
      | some p => noCommentStart p.2
    else if b = 47 ∧ (rest.head? = some 47 ∨ rest.head? = some 42) then
      false
    else noCommentStart rest
termination_by l.length
decreasing_by
  all_goals simp only [List.length_cons]
  · have := copyStr_length _ _ h
    omega
  · omega

/-- Anything `minify` outputs, when free of comment openers outside
strings, is a fixed point of `minify`. -/
theorem minify_fix : ∀ T S, minify T = some S → noCommentStart S = true →
    minify S = some S := by
  intro T
  induction T using minify.induct with
  | case1 =>
    intro S h _
    rw [minify.eq_def] at h
    simp at h
    subst h
    simp [minify]
  | case2 x rest hws ih =>
    intro S h hnc
    rw [minify.eq_def] at h
    simp [hws] at h
    exact ih S h hnc
  | case3 x rest hws hline ih =>
    intro S h hnc
    rw [minify.eq_def] at h
    simp [hws, hline] at h
    exact ih S (by simpa using h) hnc
  | case4 x rest hws hline hblock hfb =>
    intro S h hnc
    rw [minify.eq_def] at h
    simp [hws, hline, hblock] at h
    split at h
    · simp at h
    · rename_i r heq
      rw [hfb] at heq
      simp at heq
  | case5 x rest hws hline hblock r hfb ih =>
    intro S h hnc
    rw [minify.eq_def] at h
    simp [hws, hline, hblock] at h
    split at h
    · simp at h
    · rename_i r' heq
      rw [hfb] at heq
      injection heq with heq'
      subst heq'
      exact ih S h hnc
  | case6 rest hcs hws hline hblock =>
    intro S h hnc
    rw [minify.eq_def] at h
    simp [hws, hline, hblock] at h
    split at h
    · simp at h
    · rename_i p heq
      rw [hcs] at heq
      simp at heq
  | case7 rest p hcs hws hline hblock ih =>
    intro S h hnc
    rw [minify.eq_def] at h
    simp [hws, hline, hblock] at h
    split at h
    · simp at h
    · rename_i p' heq
      rw [hcs] at heq
      injection heq with heq'
      subst heq'
      rw [Option.map_eq_some'] at h
      obtain ⟨s, hs, hS⟩ := h
      subst hS
      have hre : copyStr (p.1 ++ s) = some (p.1, s) := copyStr_append rest p hcs s
      rw [noCommentStart.eq_def] at hnc
      simp at hnc
      split at hnc
      · rename_i heq2
        rw [hre] at heq2
        simp at heq2
      · rename_i p2 heq2
        rw [hre] at heq2
        injection heq2 with heq2'
        subst heq2'
        have hms : minify s = some s := ih s hs hnc
        rw [minify.eq_def]
        simp
        split
        · rename_i heq3
          rw [hre] at heq3
          simp at heq3
        · rename_i p3 heq3
          rw [hre] at heq3
          injection heq3 with heq3'
          subst heq3'
          simp [hms]
  | case8 x rest hws hline hblock hq ih =>
    intro S h hnc
    rw [minify.eq_def] at h
    simp [hws, hline, hblock, hq, Option.map_eq_some'] at h
    obtain ⟨s, hs, hS⟩ := h
    subst hS
    rw [noCommentStart.eq_def] at hnc
    simp [hq] at hnc
    obtain ⟨hcond, hncs⟩ := hnc
    have hms : minify s = some s := ih s hs hncs
    rw [minify.eq_def]
    have hln : ¬(x = 47 ∧ s.head? = some 47) := by
      rintro ⟨h1, h2⟩
      rcases hcond with hc | hc
      · exact hc h1
      · exact hc.1 h2
    have hbl : ¬(x = 47 ∧ s.head? = some 42) := by
      rintro ⟨h1, h2⟩
      rcases hcond with hc | hc
      · exact hc h1
      · exact hc.2 h2
    simp [hws, hln, hbl, hq, hms]

/-- Claim C6, as stated, is false; this is the counterexample.  On the
five-byte input `a/ /b` the minifier first produces `a//b` (dropping the
space glues the two slashes together), and a second pass treats `//` as
a line comment and produces `a`. -/
theorem minify_not_idempotent :
    ¬ ((minify [97, 47, 32, 47, 98]).bind minify = minify [97, 47, 32, 47, 98]) := by
  have h1 : minify [97, 47, 32, 47, 98] = some [97, 47, 47, 98] := by
    simp +decide [minify]
  have h2 : minify [97, 47, 47, 98] = some [97] := by
    simp +decide [minify]
  rw [h1]
  simp [h2]

/-- Claim C6 (amended): minify is idempotent on every input whose
minified form contains no `/` immediately followed by `/` or `*` outside
string literals (and trivially on inputs whose minification already
reads out of bounds). -/
theorem minify_idempotent_amended (T : List Nat)
    (h : ∀ S, minify T = some S → noCommentStart S = true) :
    (minify T).bind minify = minify T := by
  cases hT : minify T with
  | none => simp
  | some S =>
    simp only [Option.bind_some, Option.some_bind]
    exact minify_fix T S hT (h S hT)

theorem minify_idempotent_amended_witness :
    (minify [123, 32, 34, 97, 34, 32, 125]).bind minify
      = minify [123, 32, 34, 97, 34, 32, 125] :=
  minify_idempotent_amended [123, 32, 34, 97, 34, 32, 125] (by
    intro S hS
    rw [show minify [123, 32, 34, 97, 34, 32, 125] = some [123, 34, 97, 34, 125] by
      simp +decide [minify, copyStr]] at hS
    cases hS
    simp +decide [noCommentStart, copyStr])

/-- Claim C10: `cJSON_Minify` is claimed never to advance its read
cursor past the terminating null.  The code violates this: on the input
`/``*` (an unterminated block comment) the comment scan stops at the
terminator and the unconditional `json += 2` moves the cursor two bytes
past it, after which the outer loop reads out of bounds (modelled as
`none`). -/
theorem minify_overreads_unterminated_block_comment :
    minify [47, 42] = none := by
  simp +decide [minify, findBlockEnd]

theorem dropWhile_ne10_append (l r : List Nat) (h : ∀ c ∈ l, c ≠ 10) :
    (l ++ 10 :: r).dropWhile (fun c => c ≠ 10) = 10 :: r := by
  induction l with
  | nil => simp [List.dropWhile]
  | cons a t ih =>
    have ha : a ≠ 10 := h a (List.mem_cons_self _ _)
    have ih' := ih (fun c hc => h c (List.mem_cons_of_mem _ hc))
    simp only [List.cons_append, List.dropWhile, ha]
    simpa [ha] using ih'

/-- Claim C7: minify drops whitespace outside strings; a `//` comment is
dropped up to but not including the next newline; a string literal is
copied byte-for-byte (via `copyStr`, which treats backslash plus the
following byte as an atomic unit); and the concrete S7 input
`{ "a" : 1, // c\n /``* x *``/ "b":"x // y" }` minifies to
`{"a":1,"b":"x // y"}`.  (The output's null terminator is the implicit
end of the output list.) -/
theorem minify_behaviour :
    (∀ b rest, (b = 32 ∨ b = 9 ∨ b = 13 ∨ b = 10) →
      minify (b :: rest) = minify rest)
    ∧ (∀ cs rest, (∀ c ∈ cs, c ≠ 10) →
      minify (47 :: 47 :: (cs ++ 10 :: rest)) = minify (10 :: rest))
    ∧ (∀ l p, copyStr l = some p →
      minify (34 :: l) = (minify p.2).map (fun s => 34 :: p.1 ++ s))
    ∧ minify [123, 32, 34, 97, 34, 32, 58, 32, 49, 44, 32, 47, 47, 32, 99, 10,
        32, 47, 42, 32, 120, 32, 42, 47, 32, 34, 98, 34, 58, 34, 120, 32, 47,
        47, 32, 121, 34, 32, 125]
      = some [123, 34, 97, 34, 58, 49, 44, 34, 98, 34, 58, 34, 120, 32, 47,
        47, 32, 121, 34, 125] := by
  refine ⟨?_, ?_, ?_, ?_⟩
  · intro b rest hws
    rw [minify.eq_def]
    simp [hws]
  · intro cs rest hcs
    have hdrop : ((47 :: cs) ++ 10 :: rest).dropWhile (fun c => c ≠ 10) = 10 :: rest := by
      refine dropWhile_ne10_append _ _ ?_
      intro c hc
      rcases List.mem_cons.mp hc with hc | hc
      · subst hc; decide
      · exact hcs c hc
    conv_lhs => rw [minify.eq_def]
    simp only [List.head?_cons]
    norm_num
    have hd := dropWhile_ne10_append cs rest hcs
    simp only [ne_eq, decide_not] at hd ⊢
    rw [hd]
  · intro l p hcs
    conv_lhs => rw [minify.eq_def]
    norm_num
    split
    · rename_i heq
      rw [hcs] at heq
      simp at heq
    · rename_i p' heq
      rw [hcs] at heq
      injection heq with heq'
      subst heq'
      rfl
  · simp +decide [minify, copyStr, findBlockEnd]

theorem minify_behaviour_witness :
    minify (32 :: [125]) = minify [125]
    ∧ minify (47 :: 47 :: ([99] ++ 10 :: [125])) = minify (10 :: [125])
    ∧ minify (34 :: [97, 34])
      = (minify (([97, 34], ([] : List Nat)).2)).map
          (fun s => 34 :: ([97, 34], ([] : List Nat)).1 ++ s) :=
  ⟨minify_behaviour.1 32 [125] (by norm_num),
   minify_behaviour.2.1 [99] [125] (by intro c hc; simp at hc; omega),
   minify_behaviour.2.2.1 [97, 34] ([97, 34], []) (by decide)⟩

/-! ## String codec: parse_string (src/cJSON.c lines 303-537)

`parse_string` works in two passes.  The first scan (lines 367-380)
locates the closing quote (or the terminator: the code accepts an
unterminated literal), treating a backslash and its following byte as an
atomic unit and failing only on a backslash right before the terminator.
The second pass (lines 393-521) decodes the bytes before the end
pointer into the payload. -/

/-- Value of one hex digit byte, case-insensitive; `none` for a non-hex
byte.  C's `parse_hex4` (lines 303-337) returns 0 as soon as it sees a
non-hex byte. -/
def hexVal (b : Nat) : Option Nat :=
  if 48 ≤ b ∧ b ≤ 57 then some (b - 48)
  else if 65 ≤ b ∧ b ≤ 70 then some (10 + b - 65)
  else if 97 ≤ b ∧ b ≤ 102 then some (10 + b - 97)
  else none

/-- `parse_hex4` (lines 303-337): the value of four hex digit bytes,
accumulated nibble by nibble; 0 when any byte is not a hex digit
(C returns 0 early at the offending digit — extensionally the same). -/
def parse_hex4 (b1 b2 b3 b4 : Nat) : Nat :=
  match hexVal b1, hexVal b2, hexVal b3, hexVal b4 with
  | some h1, some h2, some h3, some h4 => ((h1 * 16 + h2) * 16 + h3) * 16 + h4
  | _, _, _, _ => 0

/-- `firstByteMark` table (lines 340-347), indexed by encoded length. -/
def firstByteMark : Nat → Nat
  | 2 => 0xC0
  | 3 => 0xE0
  | 4 => 0xF0
  | _ => 0x00

/-- Encoded length chosen by the boundary checks at lines 473-488. -/
def utf8Len (uc : Nat) : Nat :=
  if uc < 0x80 then 1 else if uc < 0x800 then 2 else if uc < 0x10000 then 3 else 4

/-- One continuation byte, `(uc | 0x80) & 0xBF` (lines 494/498/502). -/
def utf8Cont (uc : Nat) : Nat := (uc ||| 0x80) &&& 0xBF

/-- The 1-4 UTF-8 bytes written by the fall-through switch at lines
491-513 (which writes backwards from `ptr2 + len`; listed here in
output order). -/
def utf8Bytes (uc : Nat) : List Nat :=
  match utf8Len uc with
  | 2 => [((uc >>> 6) ||| firstByteMark 2) &&& 0xFF, utf8Cont uc]
  | 3 => [((uc >>> 12) ||| firstByteMark 3) &&& 0xFF, utf8Cont (uc >>> 6), utf8Cont uc]
  | 4 => [((uc >>> 18) ||| firstByteMark 4) &&& 0xFF, utf8Cont (uc >>> 12),
      utf8Cont (uc >>> 6), utf8Cont uc]
  | _ => [(uc ||| firstByteMark 1) &&& 0xFF]

/-- First scan of `parse_string` (lines 367-380), applied to the bytes
after the opening quote: returns the literal body (bytes before the
closing quote or terminator; backslash pairs atomic) and the rest of
the input from the closing quote on (`[]` when the literal runs to the
terminator — the C scan accepts that).  `none` models the explicit
fail on a backslash right before the terminator (line 371-375). -/
def scanStr : List Nat → Option (List Nat × List Nat)
  | [] => some ([], [])
  | b :: rest =>
    if b = 34 then some ([], b :: rest)
    else if b = 92 then
      match rest with
      | [] => none
      | x :: rest' => (scanStr rest').map (fun p => (92 :: x :: p.1, p.2))
    else (scanStr rest).map (fun p => (b :: p.1, p.2))

/-- Decode loop of `parse_string` (lines 393-521) over the literal body.
Plain bytes are copied; `\b \f \n \r \t \" \\ \/` decode to one byte;
`\uXXXX` needs its four hex digits inside the body (C checks
`ptr >= end_ptr` after `ptr += 4`), rejects code point 0 (also the
result of invalid hex digits) and lone low surrogates, requires a high
surrogate to be followed by `\u` plus a low surrogate, combines the
pair, and emits `utf8Bytes`; any other escape fails.  The six-byte
pattern for the low escape mirrors C's `(ptr + 6) > end_ptr` check: C
also lets the scan proceed when only five bytes remain, but then the
fourth low hex digit is read at the end pointer (a quote or the
terminator, never a hex digit), `parse_hex4` yields 0 and the range
check fails — extensionally the same `none`. -/
def decodeBody : List Nat → Option (List Nat)
  | [] => some []
  | b :: rest =>
    if b ≠ 92 then (decodeBody rest).map (fun s => b :: s)
    else
      match rest with
      | [] => none
      | e :: rest' =>
        if e = 98 then (decodeBody rest').map (fun s => 8 :: s)
        else if e = 102 then (decodeBody rest').map (fun s => 12 :: s)
        else if e = 110 then (decodeBody rest').map (fun s => 10 :: s)
        else if e = 114 then (decodeBody rest').map (fun s => 13 :: s)
        else if e = 116 then (decodeBody rest').map (fun s => 9 :: s)
        else if e = 34 ∨ e = 92 ∨ e = 47 then (decodeBody rest').map (fun s => e :: s)
        else if e = 117 then
          match rest' with
          | b1 :: b2 :: b3 :: b4 :: rest4 =>
            if parse_hex4 b1 b2 b3 b4 = 0
                ∨ (0xDC00 ≤ parse_hex4 b1 b2 b3 b4 ∧ parse_hex4 b1 b2 b3 b4 ≤ 0xDFFF) then
              none
            else if 0xD800 ≤ parse_hex4 b1 b2 b3 b4 ∧ parse_hex4 b1 b2 b3 b4 ≤ 0xDBFF then
              match rest4 with
              | c1 :: c2 :: c3 :: c4 :: c5 :: c6 :: rest6 =>
                if c1 = 92 ∧ c2 = 117 then
                  if 0xDC00 ≤ parse_hex4 c3 c4 c5 c6 ∧ parse_hex4 c3 c4 c5 c6 ≤ 0xDFFF then
                    (decodeBody rest6).map (fun s =>
                      utf8Bytes (0x10000 + (((parse_hex4 b1 b2 b3 b4 &&& 0x3FF) <<< 10)
                        ||| (parse_hex4 c3 c4 c5 c6 &&& 0x3FF))) ++ s)
                  else none
                else none
              | _ => none
            else (decodeBody rest4).map (fun s => utf8Bytes (parse_hex4 b1 b2 b3 b4) ++ s)
          | _ => none
        else none

/-- `parse_string` (lines 350-537) on the remaining input (cursor at the
opening quote).  On success: the decoded payload and the input after the
closing quote (the final `if (*ptr == '"') ptr++`).  `.error (some l)`
models `*ep = str` (the error pointer set to the opening quote);
`.error none` models the backslash-before-terminator failure, which
does not set `*ep`. -/
def parse_string (l : List Nat) : Except (Option (List Nat)) (List Nat × List Nat) :=
  match l with
  | 34 :: rest =>
    match scanStr rest with
    | none => .error none
    | some (raw, rest0) =>
      match decodeBody raw with
      | none => .error (some l)
      | some out =>
        .ok (out, match rest0 with | 34 :: r => r | other => other)
  | _ => .error (some l)

/-- Claim C1: `\uXXXX` escapes read exactly four hex digits
case-insensitively; invalid hex (which makes `parse_hex4` yield 0) and
code point 0 are rejected; a lone low surrogate is rejected; a high
surrogate must be followed by `\u` plus a valid low surrogate, the pair
combines as `0x10000 + ((hi & 0x3FF) << 10) | (lo & 0x3FF)` and is
emitted as 1-4 UTF-8 bytes; parsing `"🐱"` yields the payload
bytes `F0 9F 90 B1`. -/
theorem parse_string_unicode_escapes :
    (∀ b, 97 ≤ b → b ≤ 102 → hexVal b = hexVal (b - 32))
    ∧ (∀ b1 b2 b3 b4,
        (hexVal b1 = none ∨ hexVal b2 = none ∨ hexVal b3 = none ∨ hexVal b4 = none) →
        parse_hex4 b1 b2 b3 b4 = 0)
    ∧ (∀ b1 b2 b3 b4 rest, parse_hex4 b1 b2 b3 b4 = 0 →
        decodeBody (92 :: 117 :: b1 :: b2 :: b3 :: b4 :: rest) = none)
    ∧ (∀ b1 b2 b3 b4 rest,
        0xDC00 ≤ parse_hex4 b1 b2 b3 b4 → parse_hex4 b1 b2 b3 b4 ≤ 0xDFFF →
        decodeBody (92 :: 117 :: b1 :: b2 :: b3 :: b4 :: rest) = none)
    ∧ (∀ b1 b2 b3 b4 rest,
        0xD800 ≤ parse_hex4 b1 b2 b3 b4 → parse_hex4 b1 b2 b3 b4 ≤ 0xDBFF →
        (∀ c3 c4 c5 c6 rest6, rest = 92 :: 117 :: c3 :: c4 :: c5 :: c6 :: rest6 →
          ¬(0xDC00 ≤ parse_hex4 c3 c4 c5 c6 ∧ parse_hex4 c3 c4 c5 c6 ≤ 0xDFFF)) →
        decodeBody (92 :: 117 :: b1 :: b2 :: b3 :: b4 :: rest) = none)
    ∧ (∀ b1 b2 b3 b4 c3 c4 c5 c6 rest,
        0xD800 ≤ parse_hex4 b1 b2 b3 b4 → parse_hex4 b1 b2 b3 b4 ≤ 0xDBFF →
        0xDC00 ≤ parse_hex4 c3 c4 c5 c6 → parse_hex4 c3 c4 c5 c6 ≤ 0xDFFF →
        decodeBody (92 :: 117 :: b1 :: b2 :: b3 :: b4 :: 92 :: 117 :: c3 :: c4 :: c5 :: c6 :: rest)
          = (decodeBody rest).map (fun s =>
              utf8Bytes (0x10000 + (((parse_hex4 b1 b2 b3 b4 &&& 0x3FF) <<< 10)
                ||| (parse_hex4 c3 c4 c5 c6 &&& 0x3FF))) ++ s))
    ∧ (∀ uc, 1 ≤ (utf8Bytes uc).length ∧ (utf8Bytes uc).length ≤ 4
        ∧ (utf8Bytes uc).length = utf8Len uc)
    ∧ parse_string [34, 92, 117, 68, 56, 51, 68, 92, 117, 100, 99, 51, 49, 34]
        = .ok ([240, 159, 144, 177], []) := by
  refine ⟨?_, ?_, ?_, ?_, ?_, ?_, ?_, rfl⟩
  · intro b h1 h2
    interval_cases b <;> decide
  · intro b1 b2 b3 b4 h
    unfold parse_hex4
    rcases h with h | h | h | h <;>
      cases h1 : hexVal b1 <;> cases h2 : hexVal b2 <;> cases h3 : hexVal b3 <;>
      cases h4 : hexVal b4 <;> simp_all
  · intro b1 b2 b3 b4 rest h
    rw [decodeBody.eq_def]
    simp [h]
  · intro b1 b2 b3 b4 rest h1 h2
    rw [decodeBody.eq_def]
    simp [h1, h2]
  · intro b1 b2 b3 b4 rest hh1 hh2 hbad
    have h0 : ¬(parse_hex4 b1 b2 b3 b4 = 0
        ∨ (0xDC00 ≤ parse_hex4 b1 b2 b3 b4 ∧ parse_hex4 b1 b2 b3 b4 ≤ 0xDFFF)) := by omega
    match rest with
    | [] => simp [decodeBody, h0, hh1, hh2]
    | [c1] => simp [decodeBody, h0, hh1, hh2]
    | [c1, c2] => simp [decodeBody, h0, hh1, hh2]
    | [c1, c2, c3] => simp [decodeBody, h0, hh1, hh2]
    | [c1, c2, c3, c4] => simp [decodeBody, h0, hh1, hh2]
    | [c1, c2, c3, c4, c5] => simp [decodeBody, h0, hh1, hh2]
    | c1 :: c2 :: c3 :: c4 :: c5 :: c6 :: rest6 =>
      by_cases hcu : c1 = 92 ∧ c2 = 117
      · obtain ⟨hc1, hc2⟩ := hcu
        subst hc1; subst hc2
        have hr := hbad c3 c4 c5 c6 rest6 rfl
        simp [decodeBody, h0, hh1, hh2, hr]
      · simp [decodeBody, h0, hh1, hh2, hcu]
  · intro b1 b2 b3 b4 c3 c4 c5 c6 rest hh1 hh2 hl1 hl2
    have h0 : ¬(parse_hex4 b1 b2 b3 b4 = 0
        ∨ (0xDC00 ≤ parse_hex4 b1 b2 b3 b4 ∧ parse_hex4 b1 b2 b3 b4 ≤ 0xDFFF)) := by omega
    simp [decodeBody, h0, hh1, hh2, hl1, hl2]
  · intro uc
    have hcases : utf8Len uc = 1 ∨ utf8Len uc = 2 ∨ utf8Len uc = 3 ∨ utf8Len uc = 4 := by
      unfold utf8Len
      split_ifs <;> simp
    unfold utf8Bytes
    rcases hcases with h | h | h | h <;> rw [h] <;> simp [h]

theorem parse_string_unicode_escapes_witness :
    hexVal 97 = hexVal (97 - 32)
    ∧ parse_hex4 103 48 48 48 = 0
    ∧ decodeBody (92 :: 117 :: 48 :: 48 :: 48 :: 48 :: []) = none
    ∧ decodeBody (92 :: 117 :: 68 :: 67 :: 48 :: 48 :: []) = none
    ∧ decodeBody (92 :: 117 :: 68 :: 56 :: 51 :: 68 :: []) = none
    ∧ decodeBody (92 :: 117 :: 68 :: 56 :: 51 :: 68 :: 92 :: 117 :: 100 :: 99 :: 51 :: 49 :: [])
      = (decodeBody []).map (fun s =>
          utf8Bytes (0x10000 + (((parse_hex4 68 56 51 68 &&& 0x3FF) <<< 10)
            ||| (parse_hex4 100 99 51 49 &&& 0x3FF))) ++ s)
    ∧ 1 ≤ (utf8Bytes 65).length :=
  ⟨parse_string_unicode_escapes.1 97 (by norm_num) (by norm_num),
   parse_string_unicode_escapes.2.1 103 48 48 48 (by left; decide),
   parse_string_unicode_escapes.2.2.1 48 48 48 48 [] (by decide),
   parse_string_unicode_escapes.2.2.2.1 68 67 48 48 [] (by decide) (by decide),
   parse_string_unicode_escapes.2.2.2.2.1 68 56 51 68 [] (by decide) (by decide)
     (by intro c3 c4 c5 c6 rest6 hcon; cases hcon),
   parse_string_unicode_escapes.2.2.2.2.2.1 68 56 51 68 100 99 51 49 []
     (by decide) (by decide) (by decide) (by decide),
   (parse_string_unicode_escapes.2.2.2.2.2.2.1 65).1⟩

/-! ## String printing: print_string_ptr (src/cJSON.c lines 540-683) -/

/-- One lowercase hex digit as produced by `sprintf("u%04x", token)`. -/
def hexLowerDigit (n : Nat) : Nat := if n < 10 then 48 + n else 87 + n

/-- The bytes the escaping copy loop (lines 637-678) writes for one
payload byte: bytes above 31 other than `"` and `\` are copied; the
shortcut escapes produce backslash pairs; remaining bytes (controls)
become `\u00XX` with four lowercase hex digits (`token` is an unsigned
char, hence the `% 256`). -/
def escapeChar (b : Nat) : List Nat :=
  if 31 < b ∧ b ≠ 34 ∧ b ≠ 92 then [b]
  else if b = 92 then [92, 92]
  else if b = 34 then [92, 34]
  else if b = 8 then [92, 98]
  else if b = 12 then [92, 102]
  else if b = 10 then [92, 110]
  else if b = 13 then [92, 114]
  else if b = 9 then [92, 116]
  else [92, 117, 48, 48, hexLowerDigit (b % 256 / 16), hexLowerDigit (b % 16)]

/-- `print_string_ptr` (lines 540-683) on a non-null payload: the flag
pass (lines 570-577) checks whether any byte is an unprintable
(`0 < b < 32`), a quote or a backslash; if none, the payload is copied
verbatim between quotes (lines 579-602), otherwise each byte is escaped
(lines 633-680).  The trailing null terminator is implicit. -/
def print_string_ptr (s : List Nat) : List Nat :=
  if ∀ b ∈ s, ¬((0 < b ∧ b < 32) ∨ b = 34 ∨ b = 92) then
    34 :: (s ++ [34])
  else
    34 :: (s.flatMap escapeChar ++ [34])

theorem hexVal_hexLowerDigit : ∀ n, n < 16 → hexVal (hexLowerDigit n) = some n := by
  intro n h
  interval_cases n <;> decide

theorem parse_hex4_digits (b : Nat) (h : b < 256) :
    parse_hex4 48 48 (hexLowerDigit (b % 256 / 16)) (hexLowerDigit (b % 16)) = b := by
  rw [Nat.mod_eq_of_lt h]
  have h1 : b / 16 < 16 := by omega
  have h2 : b % 16 < 16 := by omega
  unfold parse_hex4
  rw [hexVal_hexLowerDigit _ h1, hexVal_hexLowerDigit _ h2,
    show hexVal 48 = some 0 from rfl]
  simp
  omega

theorem hexLowerDigit_ne (n : Nat) : hexLowerDigit n ≠ 34 ∧ hexLowerDigit n ≠ 92 := by
  unfold hexLowerDigit
  split <;> omega

theorem utf8Bytes_small (b : Nat) (h : b < 128) : utf8Bytes b = [b] := by
  have hl : utf8Len b = 1 := by
    unfold utf8Len
    rw [if_pos (by omega)]
  have h2 : (b ||| firstByteMark 1) &&& 0xFF = b := by
    rw [show firstByteMark 1 = 0 from rfl]
    have h1 : b ||| 0 = b := by simp
    rw [h1, show (0xFF : Nat) = 2 ^ 8 - 1 by norm_num,
      Nat.and_pow_two_sub_one_of_lt_two_pow (by omega)]
  unfold utf8Bytes
  rw [hl]
  show [(b ||| firstByteMark 1) &&& 0xFF] = [b]
  rw [h2]

theorem scanStr_cons_plain (b : Nat) (hb34 : b ≠ 34) (hb92 : b ≠ 92) (r : List Nat) :
    scanStr (b :: r) = (scanStr r).map (fun p => (b :: p.1, p.2)) := by
  rw [scanStr.eq_def]
  simp [hb34, hb92]

theorem scanStr_cons_esc (x : Nat) (r : List Nat) :
    scanStr (92 :: x :: r) = (scanStr r).map (fun p => (92 :: x :: p.1, p.2)) := by
  rw [scanStr.eq_def]
  simp

/-- Scanning a run of ordinary bytes just accumulates them. -/
theorem scanStr_plain_run : ∀ u v : List Nat, (∀ c ∈ u, c ≠ 34 ∧ c ≠ 92) →
    scanStr (u ++ v) = (scanStr v).map (fun p => (u ++ p.1, p.2)) := by
  intro u
  induction u with
  | nil =>
    intro v _
    cases hv : scanStr v with
    | none => simp [hv]
    | some p => simp [hv]
  | cons a t ih =>
    intro v hu
    obtain ⟨ha34, ha92⟩ := hu a (List.mem_cons_self _ _)
    have ht := ih v (fun c hc => hu c (List.mem_cons_of_mem _ hc))
    rw [List.cons_append, scanStr_cons_plain a ha34 ha92, ht]
    cases hv : scanStr v with
    | none => simp
    | some p => simp

/-- Scanning one printed escape chunk accumulates exactly that chunk. -/
theorem scanStr_escapeChar (b : Nat) (hb : 0 < b) (hb' : b < 256) (w : List Nat) :
    scanStr (escapeChar b ++ w) = (scanStr w).map (fun p => (escapeChar b ++ p.1, p.2)) := by
  by_cases h1 : 31 < b ∧ b ≠ 34 ∧ b ≠ 92
  · rw [escapeChar, if_pos h1]
    simpa using scanStr_plain_run [b] w (by
      intro c hc
      simp at hc
      subst hc
      exact ⟨h1.2.1, h1.2.2⟩)
  · have hesc : ∃ x u, escapeChar b = 92 :: x :: u ∧ (∀ c ∈ u, c ≠ 34 ∧ c ≠ 92) := by
      rw [escapeChar, if_neg h1]
      split_ifs
      all_goals
        first
          | exact ⟨_, [], rfl, fun c hc => absurd hc (by simp)⟩
          | (refine ⟨_, _, rfl, ?_⟩
             intro c hc
             simp at hc
             rcases hc with rfl | rfl | rfl
             · norm_num
             · exact hexLowerDigit_ne _
             · exact hexLowerDigit_ne _)
    obtain ⟨x, u, hchunk, hu⟩ := hesc
    rw [hchunk]
    simp only [List.cons_append]
    rw [scanStr_cons_esc, scanStr_plain_run u w hu]
    cases hv : scanStr w with
    | none => simp
    | some p => simp

/-- Scanning the fully escaped payload finds the closing quote right
after it. -/
theorem scanStr_flat : ∀ s t : List Nat, (∀ c ∈ s, 0 < c ∧ c < 256) →
    scanStr (s.flatMap escapeChar ++ 34 :: t)
      = some (s.flatMap escapeChar, 34 :: t) := by
  intro s
  induction s with
  | nil =>
    intro t _
    rw [List.flatMap_nil, List.nil_append, scanStr.eq_def]
    simp
  | cons b s' ih =>
    intro t hs
    obtain ⟨hb, hb'⟩ := hs b (List.mem_cons_self _ _)
    have ih' := ih t (fun c hc => hs c (List.mem_cons_of_mem _ hc))
    rw [List.flatMap_cons, List.append_assoc,
      scanStr_escapeChar b hb hb', ih']
    simp

/-- Decoding bytes that contain no backslash copies them verbatim. -/
theorem decodeBody_plain : ∀ s : List Nat, (∀ c ∈ s, c ≠ 92) →
    decodeBody s = some s := by
  intro s
  induction s with
  | nil => intro _; rfl
  | cons b t ih =>
    intro hs
    have hb := hs b (List.mem_cons_self _ _)
    rw [decodeBody.eq_def]
    simp [hb, ih (fun c hc => hs c (List.mem_cons_of_mem _ hc))]

/-- Decoding the escaped payload returns the original payload. -/
theorem decodeBody_flat : ∀ s : List Nat, (∀ c ∈ s, 0 < c ∧ c < 256) →
    decodeBody (s.flatMap escapeChar) = some s := by
  intro s
  induction s with
  | nil => intro _; rfl
  | cons b s' ih =>
    intro hs
    obtain ⟨hb, hb'⟩ := hs b (List.mem_cons_self _ _)
    have ih' := ih (fun c hc => hs c (List.mem_cons_of_mem _ hc))
    rw [List.flatMap_cons]
    by_cases h1 : 31 < b ∧ b ≠ 34 ∧ b ≠ 92
    · rw [escapeChar, if_pos h1, List.cons_append, List.nil_append,
        decodeBody.eq_def]
      simp [h1.2.2, ih']
    · rw [escapeChar, if_neg h1]
      split_ifs with h92 h34 h8 h12 h10 h13 h9
      · subst h92
        rw [decodeBody.eq_def]
        simp [ih']
      · subst h34
        rw [decodeBody.eq_def]
        simp [ih']
      · subst h8
        rw [decodeBody.eq_def]
        simp [ih']
      · subst h12
        rw [decodeBody.eq_def]
        simp [ih']
      · subst h10
        rw [decodeBody.eq_def]
        simp [ih']
      · subst h13
        rw [decodeBody.eq_def]
        simp [ih']
      · subst h9
        rw [decodeBody.eq_def]
        simp [ih']
      · have hb32 : b < 32 := by omega
        have hhex : parse_hex4 48 48 (hexLowerDigit (b % 256 / 16)) (hexLowerDigit (b % 16)) = b :=
          parse_hex4_digits b hb'
        have hcond : ¬(b = 0 ∨ (0xDC00 ≤ b ∧ b ≤ 0xDFFF)) := by omega
        have hsur : ¬(0xD800 ≤ b ∧ b ≤ 0xDBFF) := by omega
        rw [decodeBody.eq_def]
        simp only [List.cons_append, List.nil_append]
        simp [hhex, hcond, hsur, ih', utf8Bytes_small b (by omega)]

/-- Claim C2: every control byte `0 < b < 0x20` in a payload makes the
printer take the escaping path and emit an escape sequence (a backslash
followed by a shortcut letter or `u00XX`) for it, and parsing the
printed text back recovers the payload byte-for-byte — in particular
the byte `b` at its original position. -/
theorem print_string_escape_roundtrip :
    ∀ s : List Nat, (∀ c ∈ s, 0 < c ∧ c < 256) →
    ∀ i b, s.get? i = some b → 0 < b → b < 32 →
      (escapeChar b).head? = some 92
      ∧ print_string_ptr s = 34 :: (s.flatMap escapeChar ++ [34])
      ∧ parse_string (print_string_ptr s) = .ok (s, []) := by
  intro s hs i b hget hb0 hb32
  have hmem : b ∈ s := List.get?_mem hget
  have hflag : ¬(∀ c ∈ s, ¬((0 < c ∧ c < 32) ∨ c = 34 ∨ c = 92)) := by
    intro hall
    exact hall b hmem (Or.inl ⟨hb0, hb32⟩)
  have hprint : print_string_ptr s = 34 :: (s.flatMap escapeChar ++ [34]) := by
    rw [print_string_ptr, if_neg hflag]
  refine ⟨?_, hprint, ?_⟩
  · rw [escapeChar, if_neg (by omega)]
    split_ifs <;> rfl
  · rw [hprint]
    have hscan : scanStr (s.flatMap escapeChar ++ [34])
        = some (s.flatMap escapeChar, [34]) := by
      simpa using scanStr_flat s [] hs
    have hdec := decodeBody_flat s hs
    rw [parse_string.eq_def]
    simp [hscan, hdec]

theorem print_string_escape_roundtrip_witness :
    (escapeChar 7).head? = some 92
    ∧ print_string_ptr [7] = 34 :: (([7] : List Nat).flatMap escapeChar ++ [34])
    ∧ parse_string (print_string_ptr [7]) = .ok ([7], []) :=
  print_string_escape_roundtrip [7] (by norm_num) 0 7 rfl (by norm_num) (by norm_num)

/-! ## Number printing: print_number (src/cJSON.c lines 227-300)

A C `double` is modelled by `MDouble`: NaN, a signed infinity, or a
finite value represented exactly as a rational (every finite double is
a rational; C comparisons between doubles are exact comparisons of the
represented values, comparisons involving NaN are false, and
`floor(±∞) - ±∞` is NaN).  `DBL_EPSILON` is exactly `2⁻⁵²`;
`(double)INT_MAX` and `(double)INT_MIN` are exactly `±2³¹∓…`.  The C
literals `1.0e60`, `1.0e-6`, `1.0e9` are modelled by the exact rationals
they denote.  Only the *selection* of the output form is modelled; the
`sprintf` text itself is libc behaviour outside this repository. -/

/-- Model of a C `double` payload. -/
inductive MDouble where
  | nan : MDouble
  | inf : Bool → MDouble
  | fin : ℚ → MDouble
deriving DecidableEq

/-- `fabs(floor(d) - d) <= DBL_EPSILON && d <= INT_MAX && d >= INT_MIN`
(line 248).  False for NaN (all comparisons false) and ±∞
(`floor(±∞) - ±∞` is NaN). -/
def intInRange : MDouble → Bool
  | .fin q => decide (|(⌊q⌋ : ℚ) - q| ≤ ((2 : ℚ) ^ 52)⁻¹
      ∧ q ≤ 2147483647 ∧ -2147483648 ≤ q)
  | _ => false

/-- `(d * 0) != 0`, the NaN/Infinity test at line 281. -/
def isNanOrInf : MDouble → Bool
  | .fin _ => false
  | _ => true

/-- `fabs(floor(d) - d) <= DBL_EPSILON` (line 285); false for NaN/±∞. -/
def isIntValued : MDouble → Bool
  | .fin q => decide (|(⌊q⌋ : ℚ) - q| ≤ ((2 : ℚ) ^ 52)⁻¹)
  | _ => false

/-- `fabs(d) < c`; false for NaN and ±∞. -/
def absLt (d : MDouble) (c : ℚ) : Bool :=
  match d with
  | .fin q => decide (|q| < c)
  | _ => false

/-- `fabs(d) > c`; false for NaN, true for ±∞. -/
def absGt (d : MDouble) (c : ℚ) : Bool :=
  match d with
  | .fin q => decide (c < |q|)
  | .inf _ => true
  | .nan => false

/-- The C cast `(int)d`: truncation toward zero. -/
def truncQ (q : ℚ) : Int := if q < 0 then ⌈q⌉ else ⌊q⌋

/-- The finite payload of an `MDouble` (only used in branches where the
value is finite). -/
def qOf : MDouble → ℚ
  | .fin q => q
  | _ => 0

/-- Which text `print_number` emits (the `sprintf` formats themselves
are libc, outside this repository). -/
inductive NumOut where
  | strZero : NumOut
  | strInt : Int → NumOut
  | strNull : NumOut
  | strF0 : NumOut
  | strSci : NumOut
  | strF : NumOut
deriving DecidableEq

/-- `print_number` (lines 227-300): output-form selection in source
order — `d == 0` → `"0"`; integer-valued within int32 → `%d` of
`(int)d`; then inside the float branch: NaN/∞ → `"null"`,
integer-valued with `|d| < 1e60` → `%.0f`, `|d| < 1e-6 || |d| > 1e9` →
`%e`, otherwise `%f`. -/
def print_number (d : MDouble) : NumOut :=
  if d = .fin 0 then .strZero
  else if intInRange d then .strInt (truncQ (qOf d))
  else if isNanOrInf d then .strNull
  else if isIntValued d && absLt d (10 ^ 60) then .strF0
  else if absLt d (1 / 1000000) || absGt d (10 ^ 9) then .strSci
  else .strF

/-- Claim C4: the printer's case selection, in order: 0 → `"0"`;
integer-valued within signed 32-bit → decimal integer; NaN/±∞ →
`null`; integer-valued with `|d| < 1e60` → `%.0f`; `|d| < 1e-6` or
`|d| > 1e9` → `%e`; otherwise `%f`; and the concrete cases 1.0e100 →
scientific, 0.0 → `"0"`, NaN → `null`. -/
theorem print_number_cases :
    (print_number (.fin 0) = .strZero)
    ∧ (∀ q : ℚ, q ≠ 0 → |(⌊q⌋ : ℚ) - q| ≤ ((2 : ℚ) ^ 52)⁻¹ →
        q ≤ 2147483647 → -2147483648 ≤ q →
        print_number (.fin q) = .strInt (truncQ q))
    ∧ (print_number .nan = .strNull ∧ ∀ s, print_number (.inf s) = .strNull)
    ∧ (∀ q : ℚ, q ≠ 0 →
        ¬(q ≤ 2147483647 ∧ -2147483648 ≤ q) →
        |(⌊q⌋ : ℚ) - q| ≤ ((2 : ℚ) ^ 52)⁻¹ → |q| < 10 ^ 60 →
        print_number (.fin q) = .strF0)
    ∧ (∀ q : ℚ, q ≠ 0 →
        ¬(|(⌊q⌋ : ℚ) - q| ≤ ((2 : ℚ) ^ 52)⁻¹ ∧ q ≤ 2147483647 ∧ -2147483648 ≤ q) →
        ¬(|(⌊q⌋ : ℚ) - q| ≤ ((2 : ℚ) ^ 52)⁻¹ ∧ |q| < 10 ^ 60) →
        (|q| < 1 / 1000000 ∨ 10 ^ 9 < |q|) →
        print_number (.fin q) = .strSci)
    ∧ (∀ q : ℚ, q ≠ 0 →
        ¬(|(⌊q⌋ : ℚ) - q| ≤ ((2 : ℚ) ^ 52)⁻¹ ∧ q ≤ 2147483647 ∧ -2147483648 ≤ q) →
        ¬(|(⌊q⌋ : ℚ) - q| ≤ ((2 : ℚ) ^ 52)⁻¹ ∧ |q| < 10 ^ 60) →
        ¬(|q| < 1 / 1000000 ∨ 10 ^ 9 < |q|) →
        print_number (.fin q) = .strF)
    ∧ print_number (.fin (10 ^ 100)) = .strSci := by
  refine ⟨rfl, ?_, ⟨rfl, fun s => rfl⟩, ?_, ?_, ?_, ?_⟩
  · intro q hq he hle hge
    rw [print_number, if_neg (by simpa using hq),
      if_pos (by simp [intInRange]; exact ⟨he, hle, hge⟩)]
    rfl
  · intro q hq hrange he habs
    rw [print_number, if_neg (by simpa using hq),
      if_neg (by
        simp [intInRange]
        intro h1 h2
        by_contra hcon
        exact hrange ⟨h2, le_of_not_lt hcon⟩),
      if_neg (by simp [isNanOrInf]),
      if_pos (by simp [isIntValued, absLt]; exact ⟨he, habs⟩)]
  · intro q hq hint hf0 hsci
    rw [print_number, if_neg (by simpa using hq),
      if_neg (by
        simp [intInRange]
        intro h1 h2
        by_contra hcon
        exact hint ⟨h1, h2, le_of_not_lt hcon⟩),
      if_neg (by simp [isNanOrInf]),
      if_neg (by
        simp [isIntValued, absLt]
        intro h1
        by_contra hcon
        exact hf0 ⟨h1, not_le.mp hcon⟩),
      if_pos (by simp [absLt, absGt]; simpa [one_div] using hsci)]
  · intro q hq hint hf0 hsci
    rw [print_number, if_neg (by simpa using hq),
      if_neg (by
        simp [intInRange]
        intro h1 h2
        by_contra hcon
        exact hint ⟨h1, h2, le_of_not_lt hcon⟩),
      if_neg (by simp [isNanOrInf]),
      if_neg (by
        simp [isIntValued, absLt]
        intro h1
        by_contra hcon
        exact hf0 ⟨h1, not_le.mp hcon⟩),
      if_neg (by simp [absLt, absGt, not_or]; simpa [one_div, not_or] using hsci)]
  · rw [print_number, if_neg (by norm_num),
      if_neg (by simp [intInRange]; intro h1 h2; exact absurd h2 (by norm_num)),
      if_neg (by simp [isNanOrInf]),
      if_neg (by simp [isIntValued, absLt]; intro h; norm_num),
      if_pos (by simp [absLt, absGt]; norm_num)]

theorem print_number_cases_witness :
    print_number (.fin 5) = .strInt (truncQ 5)
    ∧ print_number (.fin (3 * 10 ^ 9)) = .strF0
    ∧ print_number (.fin (2 * 10 ^ 60)) = .strSci
    ∧ print_number (.fin (3 / 2)) = .strF :=
  ⟨print_number_cases.2.1 5 (by norm_num) (by norm_num) (by norm_num) (by norm_num),
   print_number_cases.2.2.2.1 (3 * 10 ^ 9) (by norm_num) (by norm_num)
     (by norm_num) (by norm_num),
   print_number_cases.2.2.2.2.1 (2 * 10 ^ 60) (by norm_num) (by norm_num)
     (by norm_num) (by norm_num),
   print_number_cases.2.2.2.2.2.1 (3 / 2) (by norm_num)
     (by
       norm_num
       rw [abs_of_pos (show (0 : ℚ) < 1 / 2 by norm_num)]
       norm_num)
     (by
       norm_num
       intro h
       rw [abs_of_pos (show (0 : ℚ) < 1 / 2 by norm_num)] at h
       norm_num at h)
     (by
       norm_num
       rw [abs_of_pos (show (0 : ℚ) < 3 / 2 by norm_num)]
       norm_num)⟩


/-! ## Printbuffer growth: ensure (src/cJSON.c lines 157-211)

`size_t` arithmetic is modulo `2 ^ 64`.  Allocation is assumed to
succeed (the malloc-failure path frees the buffer and fails; it is
allocator behaviour, not selection logic).  The returned pointer
`buffer + offset` is determined by the updated state, which is what the
model returns. -/

/-- The `printbuffer` struct (lines 157-163).  `buffer = none` models a
null buffer pointer; the list is the allocated bytes (fresh allocations
are modelled zero-filled; `ensure` never exposes uncopied bytes). -/
structure Printbuffer where
  buffer : Option (List Nat)
  length : Nat
  offset : Nat
  noalloc : Bool
deriving DecidableEq

/-- `ensure` (lines 169-211): `needed += offset` (wrapping);  no work if
`needed <= length`; fail in `noalloc` mode; otherwise grow to
`max(length, needed) * 2` (wrapping), failing when the doubled size
does not exceed `needed`, and copy the old `length` bytes. -/
def ensure (p : Printbuffer) (needed0 : Nat) : Option Printbuffer :=
  match p.buffer with
  | none => none
  | some buf =>
    let needed := (needed0 + p.offset) % 2 ^ 64
    if needed ≤ p.length then some p
    else if p.noalloc then none
    else
      let newsize := (max p.length needed * 2) % 2 ^ 64
      if newsize ≤ needed then none
      else some { p with
        buffer := some (buf.take p.length ++ List.replicate (newsize - p.length) 0),
        length := newsize }

/-- Claim C5, as stated, is false at states where `offset + n` wraps
around `size_t`: with `offset = 2 ^ 64 - 1`, `n = 1` the wrapped
`needed` is 0, so `ensure` succeeds without reallocating even though
`offset + n > capacity` and `noalloc` is set (the claim demands failure
there). -/
theorem ensure_claim_counterexample :
    (2 ^ 64 - 1) + 1 > 10
    ∧ (⟨some [], 10, 2 ^ 64 - 1, true⟩ : Printbuffer).noalloc = true
    ∧ ensure ⟨some [], 10, 2 ^ 64 - 1, true⟩ 1
        = some ⟨some [], 10, 2 ^ 64 - 1, true⟩ := by
  refine ⟨by norm_num, rfl, ?_⟩
  rw [ensure]
  norm_num

/-- Claim C5 (amended): for `size_t`-representable states, and provided
`offset + n` itself does not wrap around `2 ^ 64`: `ensure` succeeds
unchanged when `offset + n ≤ capacity`; otherwise it fails in `noalloc`
mode; otherwise it grows to `max(capacity, offset + n) * 2` computed
modulo `2 ^ 64`, failing exactly when that wrapped product does not
exceed `offset + n`, and the old contents are copied. -/
theorem ensure_amended (p : Printbuffer) (n : Nat) (buf : List Nat)
    (hbuf : p.buffer = some buf) (hlen : p.length < 2 ^ 64)
    (hno : n + p.offset < 2 ^ 64) :
    (n + p.offset ≤ p.length → ensure p n = some p)
    ∧ (p.length < n + p.offset → p.noalloc = true → ensure p n = none)
    ∧ (p.length < n + p.offset → p.noalloc = false →
        ((max p.length (n + p.offset) * 2) % 2 ^ 64 ≤ n + p.offset →
          ensure p n = none)
        ∧ (n + p.offset < (max p.length (n + p.offset) * 2) % 2 ^ 64 →
          ensure p n = some { p with
            buffer := some (buf.take p.length ++
              List.replicate ((max p.length (n + p.offset) * 2) % 2 ^ 64 - p.length) 0),
            length := (max p.length (n + p.offset) * 2) % 2 ^ 64 })) := by
  have hmod : (n + p.offset) % 2 ^ 64 = n + p.offset := Nat.mod_eq_of_lt hno
  refine ⟨?_, ?_, ?_⟩
  · intro hle
    rw [ensure, hbuf]
    simp only [hmod]
    rw [if_pos hle]
  · intro hgt hna
    rw [ensure, hbuf]
    simp only [hmod]
    rw [if_neg (by omega), if_pos hna]
  · intro hgt hna
    constructor
    · intro hsmall
      rw [ensure, hbuf]
      simp only [hmod]
      rw [if_neg (by omega), hna]
      simp only [Bool.false_eq_true, if_false]
      rw [if_pos hsmall]
    · intro hbig
      rw [ensure, hbuf]
      simp only [hmod]
      rw [if_neg (by omega), hna]
      simp only [Bool.false_eq_true, if_false]
      rw [if_neg (by omega)]

theorem ensure_amended_witness :
    ensure ⟨some [1, 2], 2, 1, false⟩ 5
      = some ⟨some ([1, 2].take 2 ++ List.replicate ((max 2 (5 + 1) * 2) % 2 ^ 64 - 2) 0),
          (max 2 (5 + 1) * 2) % 2 ^ 64, 1, false⟩ :=
  ((ensure_amended ⟨some [1, 2], 2, 1, false⟩ 5 [1, 2] rfl (by norm_num)
    (by norm_num)).2.2 (by norm_num) rfl).2 (by norm_num)



/-! ## The document tree and mutation (src/cJSON.c lines 91-128, 1715-1771, 2161-2242)

The node struct (declared in the missing header `cJSON.h`, used
throughout `src/cJSON.c`): `type`, `is_reference`, `string_is_const`,
`number`, `string` (the String/Raw payload), `name` (the Object member
key) and the `child` chain.  The intrusive `next` sibling pointers are
modelled by the `child` list itself: a node's position in its parent's
list is its place in the chain, a detached node carries no chain
(`next = NULL`). -/

/-- The `cJSON_*` type tags. -/
inductive Ctype where
  | cFalse : Ctype
  | cTrue : Ctype
  | cNULL : Ctype
  | cNumber : Ctype
  | cString : Ctype
  | cArray : Ctype
  | cObject : Ctype
  | cRaw : Ctype
deriving DecidableEq

/-- A tree node: type, is_reference, string_is_const, number, string
(payload), name (key), child list. -/
inductive cJSON where
  | mk : Ctype → Bool → Bool → MDouble → Option (List Nat) → Option (List Nat) →
      List cJSON → cJSON

def cJSON.type : cJSON → Ctype
  | .mk t _ _ _ _ _ _ => t

def cJSON.is_reference : cJSON → Bool
  | .mk _ r _ _ _ _ _ => r

def cJSON.string_is_const : cJSON → Bool
  | .mk _ _ c _ _ _ _ => c

def cJSON.number : cJSON → MDouble
  | .mk _ _ _ n _ _ _ => n

def cJSON.string : cJSON → Option (List Nat)
  | .mk _ _ _ _ s _ _ => s

def cJSON.name : cJSON → Option (List Nat)
  | .mk _ _ _ _ _ nm _ => nm

def cJSON.child : cJSON → List cJSON
  | .mk _ _ _ _ _ _ ch => ch

def cJSON.withChild : cJSON → List cJSON → cJSON
  | .mk t r c n s nm _, ch => .mk t r c n s nm ch

/-- The unlink walk of `cJSON_DetachItemFromArray` (lines 1715-1745):
walk `which` steps along the chain; if the walk falls off the end
return null, else splice the node out (`previous->next = c->next` /
`array->child = c->next`) and return it with `next = NULL`. -/
def detachFromList : List cJSON → Nat → Option (cJSON × List cJSON)
  | [], _ => none
  | c :: rest, 0 => some (c, rest)
  | c :: rest, w + 1 => (detachFromList rest w).map (fun p => (p.1, c :: p.2))

/-- `cJSON_DetachItemFromArray` (lines 1715-1745): the detached node and
the parent with that node unlinked. -/
def cJSON_DetachItemFromArray (array : cJSON) (which : Nat) : Option (cJSON × cJSON) :=
  (detachFromList array.child which).map (fun p => (p.1, array.withChild p.2))

/-- `cJSON_DetachItemFromObject` (lines 1756-1771): find the first child
whose `name` strcmp-equals `name` (children of well-formed objects have
non-null names; a null name would be undefined behaviour in C and never
matches here), then detach by its index. -/
def cJSON_DetachItemFromObject (object : cJSON) (name : List Nat) : Option (cJSON × cJSON) :=
  match object.child.findIdx? (fun c => c.name == some name) with
  | some i => cJSON_DetachItemFromArray object i
  | none => none

theorem detachFromList_spec : ∀ (l : List cJSON) (i : Nat) (x : cJSON),
    l.get? i = some x → detachFromList l i = some (x, l.eraseIdx i) := by
  intro l
  induction l with
  | nil => intro i x h; simp at h
  | cons c rest ih =>
    intro i x h
    match i with
    | 0 =>
      simp at h
      subst h
      rfl
    | Nat.succ j =>
      simp at h
      rw [detachFromList, ih j x (by simpa using h)]
      simp [List.eraseIdx]

theorem findIdx?_spec {α : Type} (p : α → Bool) : ∀ (l : List α) (i : Nat),
    l.findIdx? p = some i → ∃ x, l.get? i = some x ∧ p x = true := by
  intro l
  induction l with
  | nil => intro i h; simp [List.findIdx?] at h
  | cons a t ih =>
    intro i h
    rw [List.findIdx?_cons] at h
    by_cases hp : p a
    · simp [hp] at h
      subst h
      exact ⟨a, rfl, hp⟩
    · simp [hp] at h
      obtain ⟨j, hj, hji⟩ := h
      subst hji
      obtain ⟨x, hx, hpx⟩ := ih j hj
      exact ⟨x, by simpa using hx, hpx⟩

/-- Claim C8: for an index below the child count (or a present key),
detach returns exactly the i-th (or first matching) child — alone, its
sibling link gone (the model's detached node carries no chain) — and
the parent's child list afterwards is the original sequence with that
one node removed, in the original order. -/
theorem detach_semantics :
    (∀ (a : cJSON) (i : Nat) (x : cJSON), a.child.get? i = some x →
      cJSON_DetachItemFromArray a i = some (x, a.withChild (a.child.eraseIdx i)))
    ∧ (∀ (o : cJSON) (key : List Nat) (i : Nat),
        o.child.findIdx? (fun c => c.name == some key) = some i →
        ∃ x, o.child.get? i = some x ∧ x.name = some key
          ∧ cJSON_DetachItemFromObject o key
              = some (x, o.withChild (o.child.eraseIdx i))) := by
  constructor
  · intro a i x h
    unfold cJSON_DetachItemFromArray
    rw [detachFromList_spec a.child i x h]
    rfl
  · intro o key i hfind
    obtain ⟨x, hx, hpx⟩ := findIdx?_spec _ o.child i hfind
    refine ⟨x, hx, by simpa using hpx, ?_⟩
    unfold cJSON_DetachItemFromObject cJSON_DetachItemFromArray
    rw [hfind]
    simp only []
    rw [detachFromList_spec o.child i x hx]
    rfl

theorem detach_semantics_witness :
    cJSON_DetachItemFromArray
        (.mk .cArray false false (.fin 0) none none
          [.mk .cTrue false false (.fin 0) none none [],
           .mk .cNULL false false (.fin 0) none none []]) 1
      = some (.mk .cNULL false false (.fin 0) none none [],
          (cJSON.mk .cArray false false (.fin 0) none none
            [.mk .cTrue false false (.fin 0) none none [],
             .mk .cNULL false false (.fin 0) none none []]).withChild
            ([cJSON.mk .cTrue false false (.fin 0) none none [],
              .mk .cNULL false false (.fin 0) none none []].eraseIdx 1)) :=
  detach_semantics.1
    (.mk .cArray false false (.fin 0) none none
      [.mk .cTrue false false (.fin 0) none none [],
       .mk .cNULL false false (.fin 0) none none []]) 1
    (.mk .cNULL false false (.fin 0) none none []) rfl

/-- `internal_cJSON_Duplicate` (lines 2161-2238): copy type and number,
clear `is_reference` and `string_is_const`, strdup the payload, take the
key (strdup'd, or shared when `string_is_const` was set on the source —
value-equal either way), and when `recurse` is set duplicate every node
of the child chain recursively (a non-recursive duplicate leaves the
zero-initialised null child). -/
def internal_cJSON_Duplicate (item : cJSON) (recurse : Bool) : cJSON :=
  match item with
  | .mk t _ _ num str nm ch =>
    .mk t false false num str nm
      (if recurse then ch.attach.map (fun c => internal_cJSON_Duplicate c.1 true) else [])
decreasing_by
  have := List.sizeOf_lt_of_mem c.2
  simp
  omega

/-- A node with `is_reference` and `string_is_const` cleared on every
node of its subtree and everything else unchanged: "structurally equal,
always an owned copy". -/
def clearFlags : cJSON → cJSON
  | .mk t _ _ num str nm ch =>
    .mk t false false num str nm (ch.attach.map (fun c => clearFlags c.1))
decreasing_by
  have := List.sizeOf_lt_of_mem c.2
  simp
  omega

/-- Claim C9: duplication always yields an owned copy — both ownership
flags false, kind and payloads (number, string, key) equal to the
original's — and with `recurse` set the whole clone equals the original
subtree with all ownership flags cleared (structural equality). -/
theorem duplicate_semantics :
    (∀ item, internal_cJSON_Duplicate item true = clearFlags item)
    ∧ (∀ item r,
        (internal_cJSON_Duplicate item r).is_reference = false
        ∧ (internal_cJSON_Duplicate item r).string_is_const = false
        ∧ (internal_cJSON_Duplicate item r).type = item.type
        ∧ (internal_cJSON_Duplicate item r).number = item.number
        ∧ (internal_cJSON_Duplicate item r).string = item.string
        ∧ (internal_cJSON_Duplicate item r).name = item.name) := by
  constructor
  · have main : ∀ n item, sizeOf item ≤ n →
        internal_cJSON_Duplicate item true = clearFlags item := by
      intro n
      induction n with
      | zero =>
        intro item hle
        cases item with
        | mk t r c num str nm ch => simp at hle
      | succ n ih =>
        intro item hle
        cases item with
        | mk t r c num str nm ch =>
          rw [internal_cJSON_Duplicate, clearFlags]
          simp only [if_true, cJSON.mk.injEq, true_and]
          apply List.map_congr_left
          intro x hx
          apply ih
          have h1 := List.sizeOf_lt_of_mem x.2
          have h2 : sizeOf ch < sizeOf (cJSON.mk t r c num str nm ch) := by
            simp
          omega
    intro item
    exact main (sizeOf item) item le_rfl
  · intro item r
    cases item with
    | mk t ir sic num str nm ch =>
      rw [internal_cJSON_Duplicate]
      exact ⟨rfl, rfl, rfl, rfl, rfl, rfl⟩



/-! ## The recursive-descent parser (src/cJSON.c lines 131-154, 700-841, 952-1023, 1195-1294)

Failure is `.error e` where `e` models what the single error pointer
holds when the parse returns null: `cJSON_ParseWithOpts` (line 716)
aims `ep` at the caller's pointer or at the process-wide `global_ep`
and resets it to null (line 718), so `e = some s` means "`*ep` points
into the input at the suffix `s`" and `e = none` means "`*ep` was left
null" (number-conversion failure, a string-scan trailing backslash, or
an allocation failure — the model's fuel exhaustion plays the role of
the latter and never occurs at the generous fuel used below). -/

/-- `skip` (lines 700-708): drop bytes `<= 32` up to the terminator. -/
def skip (l : List Nat) : List Nat := l.dropWhile (fun b => b ≤ 32)

def isDigit (b : Nat) : Bool := 48 ≤ b && b ≤ 57

def isSpace (b : Nat) : Bool := b = 32 || (9 ≤ b && b ≤ 13)

def digitsVal (l : List Nat) : Nat := l.foldl (fun acc d => acc * 10 + (d - 48)) 0

/-- Model of the platform `strtod` used by `parse_number` (line 142):
the C-locale decimal subject sequence — optional whitespace, optional
sign, digits with optional point and fractional digits (at least one
digit overall), optional well-formed exponent — returning the exact
decimal value as a rational and the number of bytes consumed, or `none`
when no conversion is performed (`endptr == num`).  Platform extensions
(hex floats, `inf`/`nan` words) and IEEE-754 rounding of the value are
not modelled; no claim depends on them. -/
def strtodParse (l : List Nat) : Option (ℚ × Nat) :=
  let ws := l.takeWhile isSpace
  let l1 := l.drop ws.length
  let sgn : Bool × Nat × List Nat :=
    match l1 with
    | 43 :: r => (false, 1, r)
    | 45 :: r => (true, 1, r)
    | r => (false, 0, r)
  let l2 := sgn.2.2
  let ip := l2.takeWhile isDigit
  let l3 := l2.drop ip.length
  let frac : List Nat × Nat × List Nat :=
    match l3 with
    | 46 :: r => ((r.takeWhile isDigit), (r.takeWhile isDigit).length + 1,
        r.drop (r.takeWhile isDigit).length)
    | r => ([], 0, r)
  let fp := frac.1
  let l4 := frac.2.2
  if ip.length = 0 ∧ fp.length = 0 then none
  else
    let expPart : Nat × Int :=
      match l4 with
      | e :: r =>
        if e = 101 ∨ e = 69 then
          match r with
          | 43 :: r2 =>
            if (r2.takeWhile isDigit).length = 0 then (0, 0)
            else (2 + (r2.takeWhile isDigit).length, (digitsVal (r2.takeWhile isDigit) : Int))
          | 45 :: r2 =>
            if (r2.takeWhile isDigit).length = 0 then (0, 0)
            else (2 + (r2.takeWhile isDigit).length, -(digitsVal (r2.takeWhile isDigit) : Int))
          | r2 =>
            if (r2.takeWhile isDigit).length = 0 then (0, 0)
            else (1 + (r2.takeWhile isDigit).length, (digitsVal (r2.takeWhile isDigit) : Int))
        else (0, 0)
      | [] => (0, 0)
    let mant : ℚ := (if sgn.1 then -1 else 1) * (digitsVal (ip ++ fp) : ℚ) / 10 ^ fp.length
    some (mant * (10 : ℚ) ^ expPart.2, ws.length + sgn.2.1 + ip.length + frac.2.1 + expPart.1)

/-- `parse_number` (lines 131-154): `strtod`, then fail — WITHOUT
setting the error pointer (`.error none`) — when nothing was consumed
(`num == endpointer`). -/
def parse_number (l : List Nat) : Except (Option (List Nat)) (MDouble × List Nat) :=
  match strtodParse l with
  | none => .error none
  | some (q, k) => .ok (.fin q, l.drop k)

/-- A freshly zero-initialised node with its type set
(`cJSON_New_Item`, lines 91-101). -/
def mkNode (t : Ctype) : cJSON := .mk t false false (.fin 0) none none []

def cJSON.withName : cJSON → Option (List Nat) → cJSON
  | .mk t r c n s _ ch, nm => .mk t r c n s nm ch

mutual

/-- `parse_value` / `parse_array` / `parse_object` (lines 796-841,
952-1023, 1195-1294) with their comma loops, fuel-indexed to express
the mutual recursion (the C source has no depth limit; the fuel used by
`cJSON_ParseWithOpts` below is large enough for any input, since every
two call levels consume at least one input byte).  Out of fuel behaves
like an allocation failure: null result, error pointer untouched. -/
def parse_valueF : Nat → List Nat → Except (Option (List Nat)) (cJSON × List Nat)
  | 0, _ => .error none
  | fuel + 1, l =>
    if l.take 4 = [110, 117, 108, 108] then .ok (mkNode .cNULL, l.drop 4)
    else if l.take 5 = [102, 97, 108, 115, 101] then .ok (mkNode .cFalse, l.drop 5)
    else if l.take 4 = [116, 114, 117, 101] then .ok (mkNode .cTrue, l.drop 4)
    else
      match l.head? with
      | none => .error (some l)
      | some b =>
        if b = 34 then
          match parse_string l with
          | .error e => .error e
          | .ok pr => .ok (.mk .cString false false (.fin 0) (some pr.1) none [], pr.2)
        else if b = 45 ∨ (48 ≤ b ∧ b ≤ 57) then
          match parse_number l with
          | .error e => .error e
          | .ok pr => .ok (.mk .cNumber false false pr.1 none none [], pr.2)
        else if b = 91 then parse_arrayF fuel l
        else if b = 123 then parse_objectF fuel l
        else .error (some l)

/-- See `parse_valueF`. -/
def parse_arrayF : Nat → List Nat → Except (Option (List Nat)) (cJSON × List Nat)
  | 0, _ => .error none
  | fuel + 1, l =>
    if l.head? ≠ some 91 then .error (some l)
    else if (skip (l.drop 1)).head? = some 93 then .ok (mkNode .cArray, (skip (l.drop 1)).drop 1)
    else
      match parse_valueF fuel (skip (skip (l.drop 1))) with
      | .error e => .error e
      | .ok pr => parse_array_loopF fuel [pr.1] (skip pr.2)

/-- See `parse_valueF`. -/
def parse_array_loopF : Nat → List cJSON → List Nat →
    Except (Option (List Nat)) (cJSON × List Nat)
  | 0, _, _ => .error none
  | fuel + 1, acc, value =>
    if value.head? = some 44 then
      match parse_valueF fuel (skip (value.drop 1)) with
      | .error e => .error e
      | .ok pr => parse_array_loopF fuel (acc ++ [pr.1]) (skip pr.2)
    else if value.head? = some 93 then
      .ok (.mk .cArray false false (.fin 0) none none acc, value.drop 1)
    else .error (some value)

/-- See `parse_valueF`.  A member's key is parsed with `parse_string`
and moved onto the value node (`child->name = child->string`). -/
def parse_objectF : Nat → List Nat → Except (Option (List Nat)) (cJSON × List Nat)
  | 0, _ => .error none
  | fuel + 1, l =>
    if l.head? ≠ some 123 then .error (some l)
    else if (skip (l.drop 1)).head? = some 125 then
      .ok (mkNode .cObject, (skip (l.drop 1)).drop 1)
    else
      match parse_string (skip (skip (l.drop 1))) with
      | .error e => .error e
      | .ok kr =>
        if (skip kr.2).head? ≠ some 58 then .error (some (skip kr.2))
        else
          match parse_valueF fuel (skip ((skip kr.2).drop 1)) with
          | .error e => .error e
          | .ok pr => parse_object_loopF fuel [pr.1.withName (some kr.1)] (skip pr.2)

/-- See `parse_objectF`. -/
def parse_object_loopF : Nat → List cJSON → List Nat →
    Except (Option (List Nat)) (cJSON × List Nat)
  | 0, _, _ => .error none
  | fuel + 1, acc, value =>
    if value.head? = some 44 then
      match parse_string (skip (value.drop 1)) with
      | .error e => .error e
      | .ok kr =>
        if (skip kr.2).head? ≠ some 58 then .error (some (skip kr.2))
        else
          match parse_valueF fuel (skip ((skip kr.2).drop 1)) with
          | .error e => .error e
          | .ok pr => parse_object_loopF fuel (acc ++ [pr.1.withName (some kr.1)]) (skip pr.2)
    else if value.head? = some 125 then
      .ok (.mk .cObject false false (.fin 0) none none acc, value.drop 1)
    else .error (some value)

end

/-- `cJSON_ParseWithOpts` (lines 711-749): reset the error pointer to
null, parse one value from the skipped input, and with
`require_null_terminated` demand only trailing whitespace, pointing the
error pointer at the first trailing byte otherwise. -/
def cJSON_ParseWithOpts (T : List Nat) (requireNullTerminated : Bool) :
    Except (Option (List Nat)) (cJSON × List Nat) :=
  match parse_valueF (2 * T.length + 4) (skip T) with
  | .error e => .error e
  | .ok pr =>
    if requireNullTerminated then
      match skip pr.2 with
      | [] => .ok (pr.1, [])
      | rest => .error (some rest)
    else .ok pr

/-- `cJSON_Parse` (lines 752-755). -/
def cJSON_Parse (T : List Nat) : Except (Option (List Nat)) (cJSON × List Nat) :=
  cJSON_ParseWithOpts T false



theorem skip_suffix (l : List Nat) : (skip l).IsSuffix l :=
  List.dropWhile_suffix _

theorem scanStr_suffix : ∀ l p, scanStr l = some p → p.2.IsSuffix l := by
  intro l
  induction l using scanStr.induct with
  | case1 =>
    intro p h
    rw [scanStr.eq_def] at h
    simp at h
    subst h
    exact List.suffix_refl _
  | case2 rest =>
    intro p h
    rw [scanStr.eq_def] at h
    simp at h
    subst h
    exact List.suffix_refl _
  | case3 h =>
    intro p hh
    rw [scanStr.eq_def] at hh
    simp at hh
  | case4 x rest' h ih =>
    intro p hh
    rw [scanStr.eq_def] at hh
    simp [Option.map_eq_some'] at hh
    obtain ⟨a, b, hc, he⟩ := hh
    subst he
    exact ((ih (a, b) hc).trans (List.suffix_cons _ _)).trans (List.suffix_cons _ _)
  | case5 x rest' hx34 hx92 ih =>
    intro p hh
    rw [scanStr.eq_def] at hh
    simp [hx34, hx92, Option.map_eq_some'] at hh
    obtain ⟨a, b, hc, he⟩ := hh
    subst he
    exact (ih (a, b) hc).trans (List.suffix_cons _ _)

theorem parse_string_error_eq : ∀ l s, parse_string l = .error (some s) → s = l := by
  intro l s h
  rw [parse_string.eq_def] at h
  split at h
  · split at h
    · simp at h
    · split at h
      · simp at h
        exact h.symm
      · simp at h
  · simp at h
    exact h.symm

theorem parse_string_ok_suffix : ∀ l pr, parse_string l = .ok pr → pr.2.IsSuffix l := by
  intro l pr h
  rw [parse_string.eq_def] at h
  split at h
  · rename_i rest
    split at h
    · simp at h
    · rename_i raw rest0 hscan
      split at h
      · simp at h
      · rename_i out hdec
        simp at h
        subst h
        have h1 : rest0.IsSuffix rest := scanStr_suffix rest (raw, rest0) hscan
        have h2 : (match rest0 with
            | 34 :: r => r
            | other => other).IsSuffix rest0 := by
          split
          · exact List.suffix_cons _ _
          · exact List.suffix_refl _
        exact ((h2.trans h1).trans (List.suffix_cons _ _))
  · simp at h

theorem parse_number_error : ∀ l s, parse_number l = .error (some s) → False := by
  intro l s h
  rw [parse_number] at h
  split at h
  · simp at h
  · simp at h

theorem parse_number_ok_suffix : ∀ l pr, parse_number l = .ok pr → pr.2.IsSuffix l := by
  intro l pr h
  rw [parse_number] at h
  split at h
  · simp at h
  · simp at h
    subst h
    exact List.drop_suffix _ _


/-- Wherever the parser sets the error pointer, it points into the
current input: mutual suffix invariant over the fuel-indexed parser,
for both the error pointer on failure and the end pointer on success. -/
theorem parser_suffix : ∀ fuel : Nat,
    (∀ l s, parse_valueF fuel l = .error (some s) → s.IsSuffix l)
    ∧ (∀ l pr, parse_valueF fuel l = .ok pr → pr.2.IsSuffix l)
    ∧ (∀ l s, parse_arrayF fuel l = .error (some s) → s.IsSuffix l)
    ∧ (∀ l pr, parse_arrayF fuel l = .ok pr → pr.2.IsSuffix l)
    ∧ (∀ acc l s, parse_array_loopF fuel acc l = .error (some s) → s.IsSuffix l)
    ∧ (∀ acc l pr, parse_array_loopF fuel acc l = .ok pr → pr.2.IsSuffix l)
    ∧ (∀ l s, parse_objectF fuel l = .error (some s) → s.IsSuffix l)
    ∧ (∀ l pr, parse_objectF fuel l = .ok pr → pr.2.IsSuffix l)
    ∧ (∀ acc l s, parse_object_loopF fuel acc l = .error (some s) → s.IsSuffix l)
    ∧ (∀ acc l pr, parse_object_loopF fuel acc l = .ok pr → pr.2.IsSuffix l) := by
  intro fuel
  induction fuel with
  | zero =>
    refine ⟨fun l s h => ?_, fun l pr h => ?_, fun l s h => ?_, fun l pr h => ?_,
      fun acc l s h => ?_, fun acc l pr h => ?_, fun l s h => ?_, fun l pr h => ?_,
      fun acc l s h => ?_, fun acc l pr h => ?_⟩ <;>
      simp [parse_valueF, parse_arrayF, parse_array_loopF,
        parse_objectF, parse_object_loopF] at h
  | succ n ih =>
    obtain ⟨ihVE, ihVO, ihAE, ihAO, ihALE, ihALO, ihOE, ihOO, ihOLE, ihOLO⟩ := ih
    have chainA : ∀ a : List Nat, (skip (skip (a.drop 1))).IsSuffix a := fun a =>
      ((skip_suffix _).trans (skip_suffix _)).trans (List.drop_suffix _ _)
    refine ⟨?_, ?_, ?_, ?_, ?_, ?_, ?_, ?_, ?_, ?_⟩
    · -- parse_valueF, error
      intro l s h
      rw [parse_valueF] at h
      split at h
      · simp at h
      split at h
      · simp at h
      split at h
      · simp at h
      split at h
      · simp at h
        subst h
        exact List.suffix_refl _
      split at h
      · split at h
        · rename_i e heq
          simp at h
          subst h
          have := parse_string_error_eq l s heq
          rw [this]
        · simp at h
      split at h
      · split at h
        · rename_i e heq
          simp at h
          subst h
          exact (parse_number_error l s heq).elim
        · simp at h
      split at h
      · exact ihAE l s h
      split at h
      · exact ihOE l s h
      · simp at h
        subst h
        exact List.suffix_refl _
    · -- parse_valueF, ok
      intro l pr h
      rw [parse_valueF] at h
      split at h
      · simp at h
        subst h
        exact List.drop_suffix _ _
      split at h
      · simp at h
        subst h
        exact List.drop_suffix _ _
      split at h
      · simp at h
        subst h
        exact List.drop_suffix _ _
      split at h
      · simp at h
      split at h
      · split at h
        · simp at h
        · rename_i pr' heq
          simp at h
          subst h
          exact parse_string_ok_suffix l pr' heq
      split at h
      · split at h
        · simp at h
        · rename_i pr' heq
          simp at h
          subst h
          exact parse_number_ok_suffix l pr' heq
      split at h
      · exact ihAO l pr h
      split at h
      · exact ihOO l pr h
      · simp at h
    · -- parse_arrayF, error
      intro l s h
      rw [parse_arrayF] at h
      split at h
      · simp at h
        subst h
        exact List.suffix_refl _
      split at h
      · simp at h
      split at h
      · rename_i e heq
        simp at h
        subst h
        exact (ihVE _ s heq).trans (chainA l)
      · rename_i pr heq
        exact ((ihALE _ _ s h).trans ((skip_suffix _).trans (ihVO _ pr heq))).trans (chainA l)
    · -- parse_arrayF, ok
      intro l pr h
      rw [parse_arrayF] at h
      split at h
      · simp at h
      split at h
      · simp at h
        subst h
        exact (List.tail_suffix _).trans ((skip_suffix _).trans (List.tail_suffix _))
      split at h
      · simp at h
      · rename_i pr' heq
        exact ((ihALO _ _ pr h).trans ((skip_suffix _).trans (ihVO _ pr' heq))).trans (chainA l)
    · -- parse_array_loopF, error
      intro acc l s h
      rw [parse_array_loopF] at h
      split at h
      · split at h
        · rename_i e heq
          simp at h
          subst h
          exact (ihVE _ s heq).trans ((skip_suffix _).trans (List.drop_suffix _ _))
        · rename_i pr heq
          exact ((ihALE _ _ s h).trans ((skip_suffix _).trans (ihVO _ pr heq))).trans
            ((skip_suffix _).trans (List.drop_suffix _ _))
      split at h
      · simp at h
      · simp at h
        subst h
        exact List.suffix_refl _
    · -- parse_array_loopF, ok
      intro acc l pr h
      rw [parse_array_loopF] at h
      split at h
      · split at h
        · simp at h
        · rename_i pr' heq
          exact ((ihALO _ _ pr h).trans ((skip_suffix _).trans (ihVO _ pr' heq))).trans
            ((skip_suffix _).trans (List.drop_suffix _ _))
      split at h
      · simp at h
        subst h
        exact List.tail_suffix _
      · simp at h
    · -- parse_objectF, error
      intro l s h
      rw [parse_objectF] at h
      split at h
      · simp at h
        subst h
        exact List.suffix_refl _
      split at h
      · simp at h
      split at h
      · rename_i e heq
        simp at h
        subst h
        have := parse_string_error_eq _ s heq
        rw [this]
        exact chainA l
      · rename_i kr heq
        split at h
        · simp at h
          subst h
          exact (skip_suffix _).trans ((parse_string_ok_suffix _ kr heq).trans (chainA l))
        split at h
        · rename_i e heq2
          simp at h
          subst h
          exact (((ihVE _ s heq2).trans ((skip_suffix _).trans (List.drop_suffix _ _))).trans
            ((skip_suffix _).trans (parse_string_ok_suffix _ kr heq))).trans (chainA l)
        · rename_i pr heq2
          exact (((((ihOLE _ _ s h).trans ((skip_suffix _).trans (ihVO _ pr heq2))).trans
            ((skip_suffix _).trans (List.drop_suffix _ _))).trans
            ((skip_suffix _).trans (parse_string_ok_suffix _ kr heq))).trans (chainA l))
    · -- parse_objectF, ok
      intro l pr h
      rw [parse_objectF] at h
      split at h
      · simp at h
      split at h
      · simp at h
        subst h
        exact (List.tail_suffix _).trans ((skip_suffix _).trans (List.tail_suffix _))
      split at h
      · simp at h
      · rename_i kr heq
        split at h
        · simp at h
        split at h
        · simp at h
        · rename_i pr' heq2
          exact (((((ihOLO _ _ pr h).trans ((skip_suffix _).trans (ihVO _ pr' heq2))).trans
            ((skip_suffix _).trans (List.drop_suffix _ _))).trans
            ((skip_suffix _).trans (parse_string_ok_suffix _ kr heq))).trans (chainA l))
    · -- parse_object_loopF, error
      intro acc l s h
      rw [parse_object_loopF] at h
      split at h
      · split at h
        · rename_i e heq
          simp at h
          subst h
          have := parse_string_error_eq _ s heq
          rw [this]
          exact (skip_suffix _).trans (List.drop_suffix _ _)
        · rename_i kr heq
          split at h
          · simp at h
            subst h
            exact (skip_suffix _).trans ((parse_string_ok_suffix _ kr heq).trans
              ((skip_suffix _).trans (List.drop_suffix _ _)))
          split at h
          · rename_i e heq2
            simp at h
            subst h
            exact ((ihVE _ s heq2).trans ((skip_suffix _).trans (List.drop_suffix _ _))).trans
              ((skip_suffix _).trans ((parse_string_ok_suffix _ kr heq).trans
                ((skip_suffix _).trans (List.drop_suffix _ _))))
          · rename_i pr heq2
            exact ((((ihOLE _ _ s h).trans ((skip_suffix _).trans (ihVO _ pr heq2))).trans
              ((skip_suffix _).trans (List.drop_suffix _ _))).trans
              ((skip_suffix _).trans ((parse_string_ok_suffix _ kr heq).trans
                ((skip_suffix _).trans (List.drop_suffix _ _)))))
      split at h
      · simp at h
      · simp at h
        subst h
        exact List.suffix_refl _
    · -- parse_object_loopF, ok
      intro acc l pr h
      rw [parse_object_loopF] at h
      split at h
      · split at h
        · simp at h
        · rename_i kr heq
          split at h
          · simp at h
          split at h
          · simp at h
          · rename_i pr' heq2
            exact ((((ihOLO _ _ pr h).trans ((skip_suffix _).trans (ihVO _ pr' heq2))).trans
              ((skip_suffix _).trans (List.drop_suffix _ _))).trans
              ((skip_suffix _).trans ((parse_string_ok_suffix _ kr heq).trans
                ((skip_suffix _).trans (List.drop_suffix _ _)))))
      split at h
      · simp at h
        subst h
        exact List.tail_suffix _
      · simp at h


/-- Claim C3, as stated, is false; this is the counterexample.  On the
malformed one-byte input `-` the dispatch at line 825 sends the parse to
`parse_number`, `strtod` consumes nothing, and `parse_number` returns
null without ever assigning `*ep` (lines 143-147) — so the error
pointer, reset to null at line 718, is left null rather than set to a
byte within the input. -/
theorem parse_error_pointer_not_set_counterexample :
    cJSON_Parse [45] = .error none
    ∧ ∀ s : List Nat, cJSON_Parse [45] ≠ .error (some s) := by
  refine ⟨rfl, ?_⟩
  intro s hcon
  rw [show cJSON_Parse [45] = .error none from rfl] at hcon
  simp at hcon

/-- Claim C3 (amended): for every malformed input the parse returns
null, and the error pointer is either left null (number-conversion
failures and a string scan ending in a lone backslash do not set it;
neither do allocation failures) or set to a byte within the input —
modelled as: any error suffix the parse reports is a suffix of the
input. -/
theorem parse_error_offset_within_input (T : List Nat) (rn : Bool) (s : List Nat)
    (h : cJSON_ParseWithOpts T rn = .error (some s)) : s.IsSuffix T := by
  rw [cJSON_ParseWithOpts] at h
  split at h
  · rename_i e heq
    simp at h
    subst h
    exact ((parser_suffix _).1 _ s heq).trans (skip_suffix T)
  · rename_i pr heq
    split at h
    · split at h
      · simp at h
      · simp at h
        subst h
        exact ((skip_suffix pr.2).trans ((parser_suffix _).2.1 _ pr heq)).trans
          (skip_suffix T)
    · simp at h

theorem parse_error_offset_within_input_witness :
    List.IsSuffix [120] [120] :=
  parse_error_offset_within_input [120] false [120] rfl

end CJson
